import Mathlib

set_option maxHeartbeats 1000000

namespace Bitdefender

/-- Go strings are modelled as lists of characters. -/
abbrev Str := List Char

/-- Model of Go's unicode.IsSpace: the Latin-1 whitespace characters plus the
Unicode White_Space code points. -/
def goIsSpace (c : Char) : Bool :=
  c = ' ' || c = '\t' || c = '\n' || c = '\x0b' || c = '\x0c' || c = '\r' ||
  c = '\u0085' || c = '\u00A0' || c = '\u1680' ||
  ('\u2000' ≤ c && c ≤ '\u200A') ||
  c = '\u2028' || c = '\u2029' || c = '\u202F' || c = '\u205F' || c = '\u3000'

/-- Index of the leftmost occurrence of sub in the string (Go strings.Index,
restricted to the found case: some i when found, none when absent). -/
def indexOfSubstr (sub : Str) : Str → Option Nat
  | [] => if sub.isPrefixOf ([] : Str) then some 0 else none
  | c :: rest =>
    if sub.isPrefixOf (c :: rest) then some 0
    else (indexOfSubstr sub rest).map (fun k => k + 1)

/-- Go strings.Contains(s, sub). -/
def goContains (s sub : Str) : Bool := (indexOfSubstr sub s).isSome

/-- Worker for goSplit; the fuel argument bounds the number of separator
occurrences that can be consumed and is always sufficient at the wrapper. -/
def goSplitAux (sep : Str) : Nat → Str → List Str
  | 0, s => [s]
  | fuel + 1, s =>
    match indexOfSubstr sep s with
    | none => [s]
    | some i => s.take i :: goSplitAux sep fuel (s.drop (i + sep.length))

/-- Go strings.Split(s, sep) for a non-empty separator: the list of segments
of s between consecutive leftmost occurrences of sep. -/
def goSplit (s sep : Str) : List Str := goSplitAux sep (s.length + 1) s

/-- Go strings.HasPrefix(s, pre). -/
def goStartsWith (s pre : Str) : Bool := pre.isPrefixOf s

/-- Go strings.TrimPrefix(s, pre): s without the leading pre, when present. -/
def goTrimLeading (s pre : Str) : Str :=
  if goStartsWith s pre then s.drop pre.length else s

/-- Go strings.TrimSpace(s): s with leading and trailing whitespace removed. -/
def goTrimSpace (s : Str) : Str :=
  ((s.dropWhile goIsSpace).reverse.dropWhile goIsSpace).reverse

/-- Worker for goFields: walks the string keeping the (reversed) current
field in the accumulator. -/
def fieldsAux : Str → Str → List Str
  | [], cur => if cur.isEmpty then [] else [cur.reverse]
  | c :: rest, cur =>
    if goIsSpace c then
      if cur.isEmpty then fieldsAux rest [] else cur.reverse :: fieldsAux rest []
    else fieldsAux rest (c :: cur)

/-- Go strings.Fields(s): the maximal runs of non-whitespace characters. -/
def goFields (s : Str) : List Str := fieldsAux s []

/-- The literal marker the parser looks for on an infection line. -/
def markerStr : Str := "infected:".data

/-- The literal marker of the scanner banner line. -/
def unicesStr : Str := "Unices v".data

/-- The line separator the parser splits the raw output on. -/
def newlineStr : Str := "\n".data

/-- The single-character token the banner-line word scan looks for. -/
def vStr : Str := "v".data

/-- The error text Go produces for an exit-status-1 process failure; assert
treats exactly this error as benign (the scanner's virus-found exit code). -/
def exitStatus1 : Str := "exit status 1".data

/-- ResultsData from the source: the four parsed fields of a scan result
(the optional markdown rendering is presentation only and carries no
parser-level content). -/
structure ResultsData where
  infected : Bool
  result : Str
  engine : Str
  updated : Str
deriving Repr, DecidableEq

/-- extractVirusName from the source: split the line on the marker and trim
the element at index 1.  Go indexes keyvalue[1] directly; every caller
guards with strings.Contains, so the list has at least two elements and the
default of getD is never used under that guard. -/
def extractVirusName (line : Str) : Str :=
  let keyvalue := goSplit line markerStr
  goTrimSpace (keyvalue.getD 1 [])

/-- The body of the word loop of the banner-line case: a word starting with
the letter v overwrites the engine accumulator with the word minus that v. -/
def vStep (e word : Str) : Str :=
  if goStartsWith word vStr then goTrimLeading word vStr else e

/-- One iteration of the line loop of ParseBitdefenderOutput.  The source
calls os.Exit(2) when an infection line carries an empty extracted name;
that process abort is modelled as the error branch of Except. -/
def processLine (acc : ResultsData) (line : Str) : Except Unit ResultsData :=
  if line.length ≠ 0 then
    if goContains line markerStr then
      let result := extractVirusName line
      if result.length ≠ 0 then
        Except.ok { acc with result := result, infected := true }
      else
        Except.error ()
    else if goContains line unicesStr then
      Except.ok { acc with engine := (goFields line).foldl vStep acc.engine }
    else
      Except.ok acc
  else
    Except.ok acc

/-- The line loop of ParseBitdefenderOutput, threading the accumulated
result through processLine and aborting on the first fatal line. -/
def scanLines (acc : ResultsData) : List Str → Except Unit ResultsData
  | [] => Except.ok acc
  | line :: rest =>
    match processLine acc line with
    | Except.ok acc2 => scanLines acc2 rest
    | Except.error e => Except.error e

/-- The external state getUpdatedDate depends on: the build-time constant
BuildTime and the sentinel file /opt/malice/UPDATED (none when the file is
absent, some contents when present). -/
structure ParseEnv where
  buildTime : Str
  sentinel : Option Str
deriving Repr, DecidableEq

/-- getUpdatedDate from the source: the build-time constant when the
sentinel file is absent, otherwise the raw file contents verbatim. -/
def getUpdatedDate (env : ParseEnv) : Str :=
  match env.sentinel with
  | none => env.buildTime
  | some contents => contents

/-- ParseBitdefenderOutput from the source.  A non-nil err argument yields
the zero-value ResultsData immediately; otherwise the output is split on
newlines, the line loop runs, and the Updated field is stamped from
getUpdatedDate.  The os.Exit(2) abort inside the loop surfaces as
Except.error. -/
def ParseBitdefenderOutput (env : ParseEnv) (bitdefenderout : Str) (err : Bool) :
    Except Unit ResultsData :=
  if err then
    Except.ok { infected := false, result := [], engine := [], updated := [] }
  else
    match scanLines { infected := false, result := [], engine := [], updated := [] }
        (goSplit bitdefenderout newlineStr) with
    | Except.error e => Except.error e
    | Except.ok r => Except.ok { r with updated := getUpdatedDate env }

/-- Model of the assert helper: a non-nil error whose text differs from
"exit status 1" aborts the process through log.Fatal. -/
def assertFatal (e : Option Str) : Bool :=
  match e with
  | none => false
  | some m => if m = exitStatus1 then false else true

/-- A calendar date as used by time.Now().Format("20060102"). -/
structure GoDate where
  year : Nat
  month : Nat
  day : Nat
deriving Repr, DecidableEq

/-- Worker producing the decimal digits of n, most significant first. -/
def decAux : Nat → Nat → Str → Str
  | 0, _, acc => acc
  | fuel + 1, n, acc =>
    if n = 0 then acc
    else decAux fuel (n / 10) (Nat.digitChar (n % 10) :: acc)

/-- Decimal representation of a natural number. -/
def decRepr (n : Nat) : Str := if n = 0 then ['0'] else decAux n n []

/-- Decimal representation left-padded with zeros to width w, as the
Go reference layout "2006", "01", "02" pads the date components. -/
def padNum (w n : Nat) : Str :=
  let ds := decRepr n
  List.replicate (w - ds.length) '0' ++ ds

/-- Go time.Format("20060102"): four-digit year, two-digit month, two-digit
day, concatenated. -/
def formatYYYYMMDD (d : GoDate) : Str :=
  padNum 4 d.year ++ padNum 2 d.month ++ padNum 2 d.day

/-- Outcome of updateAV: either the process aborts inside assert, or the
function completes having overwritten the sentinel file and returns the
write error (none on a successful write). -/
inductive UpdateOutcome where
  | fatal (code : Nat)
  | completed (sentinelWritten : Str) (returnedErr : Option Str)
deriving Repr, DecidableEq

/-- updateAV from the source: run the update sub-command, abort via assert
on a fatal run error, otherwise write today's date formatted as YYYYMMDD to
the sentinel file and return the write error verbatim. -/
def updateAV (runErr : Option Str) (today : GoDate) (writeErr : Option Str) :
    UpdateOutcome :=
  if assertFatal runErr then UpdateOutcome.fatal 1
  else UpdateOutcome.completed (formatYYYYMMDD today) writeErr

/-- Outcomes of the external steps webAvScan performs, injected as data: the
multipart form lookup, temp-file creation, upload read, temp-file write and
close, the scanner invocation (some holds the error text, a timeout
included), the raw scanner output, and the JSON encoding. -/
structure WebEffects where
  formFileErr : Bool
  tmpCreateErr : Bool
  readErr : Option Str
  writeErr : Bool
  closeErr : Bool
  runErr : Option Str
  scanOutput : Str
  encodeErr : Bool
deriving Repr, DecidableEq

/-- Observable outcome of one webAvScan invocation: whether the 400 message
was written, whether the temp file was created and later removed, the
os.Exit code when the process aborted, and whether the 200 response was
completed. -/
structure WebScanResult where
  badRequest : Bool
  tmpCreated : Bool
  tmpRemoved : Bool
  exitCode : Option Nat
  respondedOk : Bool
deriving Repr, DecidableEq

/-- webAvScan from the source, step by step.  Go's deferred os.Remove of the
temp file runs only on a normal return of the handler; os.Exit (called by
log.Fatal and by the os.Exit(2) in the parser) terminates the process
immediately without running deferred calls, so every abort branch leaves
tmpRemoved false.  A FormFile error writes the 400 message but the source
does not return there, so execution continues. -/
def webAvScan (env : ParseEnv) (eff : WebEffects) : WebScanResult :=
  let badReq := eff.formFileErr
  if eff.tmpCreateErr then
    { badRequest := badReq, tmpCreated := false, tmpRemoved := false,
      exitCode := some 1, respondedOk := false }
  else if assertFatal eff.readErr then
    { badRequest := badReq, tmpCreated := true, tmpRemoved := false,
      exitCode := some 1, respondedOk := false }
  else if eff.writeErr then
    { badRequest := badReq, tmpCreated := true, tmpRemoved := false,
      exitCode := some 1, respondedOk := false }
  else if eff.closeErr then
    { badRequest := badReq, tmpCreated := true, tmpRemoved := false,
      exitCode := some 1, respondedOk := false }
  else if assertFatal eff.runErr then
    { badRequest := badReq, tmpCreated := true, tmpRemoved := false,
      exitCode := some 1, respondedOk := false }
  else
    match ParseBitdefenderOutput env eff.scanOutput false with
    | Except.error _ =>
      { badRequest := badReq, tmpCreated := true, tmpRemoved := false,
        exitCode := some 2, respondedOk := false }
    | Except.ok _ =>
      if eff.encodeErr then
        { badRequest := badReq, tmpCreated := true, tmpRemoved := false,
          exitCode := some 1, respondedOk := false }
      else
        { badRequest := badReq, tmpCreated := true, tmpRemoved := true,
          exitCode := none, respondedOk := true }

/-- The last element of the list satisfying p, if any. -/
def lastMatching (p : Str → Bool) (lines : List Str) : Option Str :=
  lines.reverse.find? p

/-- A line the marker branch of the parser fires on. -/
def markerLineP (l : Str) : Bool := goContains l markerStr

/-- The last whitespace-delimited word of the line that starts with v. -/
def lastVWord (l : Str) : Option Str :=
  lastMatching (fun w => goStartsWith w vStr) (goFields l)

/-- The engine string a banner line contributes: its last v-word with the
leading v stripped. -/
def vOf (l : Str) : Str :=
  ((lastVWord l).map (fun w => goTrimLeading w vStr)).getD []

/-- A line that actually changes the engine field: it reaches the banner
branch (no infection marker, contains the banner marker) and carries at
least one v-word. -/
def engineLineQ (l : Str) : Bool :=
  !(goContains l markerStr) && goContains l unicesStr && (lastVWord l).isSome

/-- Closed form of the line loop on a non-fatal run: infected is set when
any marker line occurs, the result comes from the last marker line, the
engine from the last engine-changing banner line. -/
def scanModel (acc : ResultsData) (lines : List Str) : ResultsData :=
  { infected := lines.any markerLineP || acc.infected
    result := ((lastMatching markerLineP lines).map extractVirusName).getD acc.result
    engine := ((lastMatching engineLineQ lines).map vOf).getD acc.engine
    updated := acc.updated }

/-- The first whitespace-delimited word of the line starting with v (what
the spec sentence of claim C3 describes). -/
def firstVWord (l : Str) : Option Str :=
  (goFields l).find? (fun w => goStartsWith w vStr)

/-- Text of the line strictly after the first occurrence of sep (the whole
line when sep does not occur; that case is never used). -/
def afterFirstMarker (sep line : Str) : Str :=
  match indexOfSubstr sep line with
  | none => line
  | some i => line.drop (i + sep.length)

/-- Text of the line between the first occurrence of sep and the following
occurrence, or to the end of the line when sep occurs only once. -/
def betweenFirstMarkers (sep line : Str) : Str :=
  match indexOfSubstr sep line with
  | none => line
  | some i =>
    match indexOfSubstr sep (line.drop (i + sep.length)) with
    | none => line.drop (i + sep.length)
    | some j => (line.drop (i + sep.length)).take j

/-- A parse environment used by the concrete evaluations: a non-empty
build-time constant and an absent sentinel file. -/
def envA : ParseEnv := { buildTime := "20060102".data, sentinel := none }

/-- An output line containing the marker twice. -/
def sampleDoubleLine : Str := "a infected: b infected: c".data

/-- The canned EICAR detection line of the example output in the source. -/
def sampleInfOut : Str :=
  "/malware/EICAR  infected: EICAR-Test-File (not a virus)".data

/-- The trimmed name of the canned EICAR detection line. -/
def eicarName : Str := "EICAR-Test-File (not a virus)".data

/-- An infection line with nothing but whitespace after the marker. -/
def sampleEmptyName : Str := "foo infected:   ".data

/-- The banner line of the example output in the source. -/
def sampleBanner : Str :=
  "BitDefender Antivirus Scanner for Unices v7.90123 Linux-amd64".data

/-- The single v-word of the sample banner line. -/
def bannerVWord : Str := "v7.90123".data

/-- A banner-marker line with two v-words. -/
def sampleVV : Str := "Unices v1 v2".data

/-- A marker-free sample output with several lines. -/
def cleanOut : Str := "Results:\nFolders: 0\nFiles: 1".data

/-- The sentinel contents used by the spec's freshness example. -/
def updC : Str := "20230615".data

/-- Effects of a web scan whose scanner output triggers the parser's
integrity abort, every other step succeeding. -/
def effParseErr : WebEffects :=
  { formFileErr := false, tmpCreateErr := false, readErr := none,
    writeErr := false, closeErr := false, runErr := none,
    scanOutput := sampleEmptyName, encodeErr := false }

/-- An occurrence of sub at index i fits inside the string. -/
theorem indexOfSubstr_bound {sub : Str} : ∀ {s : Str} {i : Nat},
    indexOfSubstr sub s = some i → i + sub.length ≤ s.length := by
  intro s
  induction s with
  | nil =>
    intro i h
    simp only [indexOfSubstr] at h
    split at h
    · cases h
      rename_i hp
      have hpre := List.isPrefixOf_iff_prefix.mp hp
      simpa using hpre.length_le
    · cases h
  | cons c rest ih =>
    intro i h
    simp only [indexOfSubstr] at h
    split at h
    · cases h
      rename_i hp
      have hpre := List.isPrefixOf_iff_prefix.mp hp
      simpa using hpre.length_le
    · rcases Option.map_eq_some'.mp h with ⟨k, hk, rfl⟩
      have := ih hk
      simp only [List.length_cons]
      omega

/-- Containment as computed by goContains coincides with list infixes. -/
theorem goContains_iff_infix {sub : Str} : ∀ {s : Str},
    goContains s sub = true ↔ sub <:+: s := by
  intro s
  induction s with
  | nil =>
    simp only [goContains, indexOfSubstr]
    split
    · rename_i hp
      have hpre := List.isPrefixOf_iff_prefix.mp hp
      simp [hpre.isInfix]
    · rename_i hp
      constructor
      · intro hfalse; simp at hfalse
      · intro hinf
        have hsub : sub = [] := List.infix_nil.mp hinf
        exact absurd (List.isPrefixOf_iff_prefix.mpr (hsub ▸ List.nil_prefix)) hp
  | cons c rest ih =>
    simp only [goContains, indexOfSubstr]
    split
    · rename_i hp
      have hpre := List.isPrefixOf_iff_prefix.mp hp
      simp [hpre.isInfix]
    · rename_i hp
      have hnp : ¬ sub <+: c :: rest := fun hpre =>
        hp (List.isPrefixOf_iff_prefix.mpr hpre)
      rw [Option.isSome_map']
      constructor
      · intro hs
        exact List.infix_cons (ih.mp hs)
      · intro hinf
        rcases List.infix_cons_iff.mp hinf with hpre | hinf2
        · exact absurd hpre hnp
        · exact ih.mpr hinf2

/-- Every segment produced by the split worker is an infix of its input. -/
theorem goSplitAux_infix {sep : Str} : ∀ (fuel : Nat) (s l : Str),
    l ∈ goSplitAux sep fuel s → l <:+: s := by
  intro fuel
  induction fuel with
  | zero =>
    intro s l h
    simp only [goSplitAux, List.mem_singleton] at h
    subst h
    exact List.infix_rfl
  | succ n ih =>
    intro s l h
    simp only [goSplitAux] at h
    split at h
    · simp only [List.mem_singleton] at h
      subst h
      exact List.infix_rfl
    · rename_i i hi
      rcases List.mem_cons.mp h with rfl | h2
      · exact (List.take_prefix i s).isInfix
      · exact (ih _ l h2).trans (List.drop_suffix _ s).isInfix

/-- Every line produced by goSplit is an infix of the split string. -/
theorem goSplit_infix {s sep l : Str} (h : l ∈ goSplit s sep) : l <:+: s :=
  goSplitAux_infix (s.length + 1) s l h

/-- When sep occurs in s, the element at index 1 of the split is the text
between the first occurrence and the following one (or the rest of s). -/
theorem goSplit_getD_one {sep s : Str} {i : Nat} (hsep : sep ≠ [])
    (hi : indexOfSubstr sep s = some i) :
    (goSplit s sep).getD 1 [] =
      (match indexOfSubstr sep (s.drop (i + sep.length)) with
      | none => s.drop (i + sep.length)
      | some j => (s.drop (i + sep.length)).take j) := by
  have hb := indexOfSubstr_bound hi
  have hsl : 1 ≤ sep.length := List.length_pos.mpr hsep
  have hs1 : 1 ≤ s.length := by omega
  rcases Nat.exists_eq_succ_of_ne_zero (show s.length ≠ 0 by omega) with ⟨m, hm⟩
  simp only [goSplit]
  simp only [goSplitAux, hi]
  rw [hm]
  simp only [goSplitAux]
  cases hj : indexOfSubstr sep (s.drop (i + sep.length)) with
  | none => simp
  | some j => simp

/-- extractVirusName computes the trimmed text between the first marker
occurrence and the next one, whenever the line contains the marker. -/
theorem extract_eq_between {l : Str} (h : goContains l markerStr = true) :
    extractVirusName l = goTrimSpace (betweenFirstMarkers markerStr l) := by
  rcases Option.isSome_iff_exists.mp h with ⟨i, hi⟩
  have hone := goSplit_getD_one (show markerStr ≠ [] by decide) hi
  simp only [extractVirusName, betweenFirstMarkers, hi]
  rw [hone]

/-- A string that trims to nothing consists of whitespace only. -/
theorem goTrimSpace_eq_nil {t : Str} (h : goTrimSpace t = []) :
    ∀ c ∈ t, goIsSpace c = true := by
  unfold goTrimSpace at h
  have h1 : (t.dropWhile goIsSpace).reverse.dropWhile goIsSpace = [] := by
    simpa using h
  have h3 : ∀ c ∈ t.dropWhile goIsSpace, goIsSpace c = true := by
    intro c hc
    exact List.dropWhile_eq_nil_iff.mp h1 c (List.mem_reverse.mpr hc)
  intro c hc
  rw [← List.takeWhile_append_dropWhile goIsSpace t] at hc
  rcases List.mem_append.mp hc with h4 | h4
  · exact List.mem_takeWhile_imp h4
  · exact h3 c h4

/-- A whitespace-only string cannot contain the infection marker. -/
theorem not_contains_of_all_space {t : Str}
    (h : ∀ c ∈ t, goIsSpace c = true) : goContains t markerStr = false := by
  cases hc : goContains t markerStr
  · rfl
  · exfalso
    have hinf : markerStr <:+: t := goContains_iff_infix.mp hc
    have hmem : ('i' : Char) ∈ t := hinf.subset (by decide)
    have := h 'i' hmem
    simp [goIsSpace] at this

/-- Pushing lastMatching through a cons: the tail wins when it matches. -/
theorem lastMatching_cons {p : Str → Bool} {l : Str} {rest : List Str} :
    lastMatching p (l :: rest) =
      (lastMatching p rest).or (if p l then some l else none) := by
  simp only [lastMatching, List.reverse_cons, List.find?_append]
  cases hr : rest.reverse.find? p
  · simp [List.find?]
    cases hp : p l <;> simp [List.find?_cons, hp]
  · simp

/-- A fold that overwrites its accumulator on matching elements returns the
image of the last matching element, or the start value when none match. -/
theorem foldl_if_last {α β : Type} (p : β → Bool) (f : β → α) :
    ∀ (ws : List β) (e : α),
      ws.foldl (fun acc w => if p w then f w else acc) e =
        ((ws.reverse.find? p).map f).getD e := by
  intro ws
  induction ws with
  | nil => intro e; rfl
  | cons w ws ih =>
    intro e
    rw [List.foldl_cons, ih, List.reverse_cons, List.find?_append]
    cases hf : ws.reverse.find? p with
    | some x => simp
    | none =>
      cases hp : p w <;> simp [List.find?_cons, hp]

/-- Closed form of one non-fatal loop iteration: a marker line with a
non-empty extracted name sets infected and the result, a banner line with a
v-word rewrites the engine, anything else leaves the accumulator alone. -/
theorem processLine_ok (acc : ResultsData) (l : Str)
    (hok : goContains l markerStr = true → extractVirusName l ≠ []) :
    processLine acc l = Except.ok
      { infected := markerLineP l || acc.infected
        result := if markerLineP l then extractVirusName l else acc.result
        engine := if engineLineQ l then vOf l else acc.engine
        updated := acc.updated } := by
  by_cases hlen : l.length ≠ 0
  · by_cases hm : goContains l markerStr
    · have hres : (extractVirusName l).length ≠ 0 := by
        intro h0
        exact hok hm (List.length_eq_zero.mp h0)
      simp [processLine, hlen, hm, hres, markerLineP, engineLineQ]
    · by_cases hu : goContains l unicesStr
      · have hfold2 : (goFields l).foldl vStep acc.engine =
            ((lastVWord l).map (fun w => goTrimLeading w vStr)).getD acc.engine := by
          rw [show vStep = (fun acc w =>
            if goStartsWith w vStr then goTrimLeading w vStr else acc) from rfl]
          exact foldl_if_last (fun w => goStartsWith w vStr)
            (fun w => goTrimLeading w vStr) (goFields l) acc.engine
        cases hv : lastVWord l with
        | none =>
          simp [processLine, markerLineP, engineLineQ, hlen, hm, hu, hfold2, hv]
        | some w =>
          simp [processLine, markerLineP, engineLineQ, hlen, hm, hu, hfold2, hv, vOf]
      · simp [processLine, hlen, hm, hu, markerLineP, engineLineQ]
  · have hl : l = [] := List.length_eq_zero.mp (by omega)
    subst hl
    have hm : goContains ([] : Str) markerStr = false := by decide
    have hu : goContains ([] : Str) unicesStr = false := by decide
    simp [processLine, markerLineP, engineLineQ, hm, hu]

/-- Closed form of the whole line loop when no line is fatal. -/
theorem scanLines_ok : ∀ (lines : List Str) (acc : ResultsData),
    (∀ l ∈ lines, goContains l markerStr = true → extractVirusName l ≠ []) →
    scanLines acc lines = Except.ok (scanModel acc lines) := by
  intro lines
  induction lines with
  | nil =>
    intro acc _
    simp [scanLines, scanModel, lastMatching]
  | cons l rest ih =>
    intro acc h
    have hl := h l (List.mem_cons_self l rest)
    have hrest : ∀ x ∈ rest, goContains x markerStr = true → extractVirusName x ≠ [] :=
      fun x hx => h x (List.mem_cons_of_mem l hx)
    rw [scanLines, processLine_ok acc l hl]
    show scanLines _ rest = _
    rw [ih _ hrest]
    apply congrArg
    rcases hr1 : lastMatching markerLineP rest with _ | x <;>
      rcases hr2 : lastMatching engineLineQ rest with _ | y <;>
        cases hml : markerLineP l <;>
          cases hql : engineLineQ l <;>
            simp [scanModel, lastMatching_cons, List.any_cons, hr1, hr2, hml, hql,
              Bool.or_assoc, Bool.or_comm, Bool.or_left_comm]

/-- The loop aborts whenever some line contains the marker but extracts an
empty name (the os.Exit(2) branch). -/
theorem scanLines_error : ∀ (lines : List Str) (acc : ResultsData),
    (∃ l, l ∈ lines ∧ goContains l markerStr = true ∧ extractVirusName l = []) →
    scanLines acc lines = Except.error () := by
  intro lines
  induction lines with
  | nil =>
    intro acc h
    rcases h with ⟨l, hl, _⟩
    simp at hl
  | cons l0 rest ih =>
    intro acc h
    rcases h with ⟨l, hmem, hcon, hext⟩
    rcases List.mem_cons.mp hmem with rfl | hmem2
    · have hne : l.length ≠ 0 := by
        intro h0
        have hnil : l = [] := List.length_eq_zero.mp h0
        rw [hnil] at hcon
        have : goContains ([] : Str) markerStr = false := by decide
        rw [this] at hcon
        cases hcon
      rw [scanLines]
      simp [processLine, hne, hcon, hext]
    · cases hpl : processLine acc l0 with
      | error e =>
        rw [scanLines, hpl]
      | ok acc2 =>
        rw [scanLines, hpl]
        exact ih acc2 ⟨l, hmem2, hcon, hext⟩

/-- One loop iteration preserves the infected/result consistency and never
touches the updated field. -/
theorem processLine_inv {acc acc2 : ResultsData} {l : Str}
    (h : processLine acc l = Except.ok acc2)
    (h1 : acc.infected = true → acc.result ≠ [])
    (h2 : acc.infected = false → acc.result = []) :
    (acc2.infected = true → acc2.result ≠ []) ∧
      (acc2.infected = false → acc2.result = []) := by
  simp only [processLine] at h
  by_cases hlen : l.length ≠ 0
  · rw [if_pos hlen] at h
    by_cases hm : goContains l markerStr
    · rw [if_pos hm] at h
      by_cases hr : (extractVirusName l).length ≠ 0
      · rw [if_pos hr] at h
        injection h with h
        subst h
        constructor
        · intro _ hnil
          have hnil2 : extractVirusName l = [] := hnil
          rw [hnil2] at hr
          exact hr rfl
        · intro hinf
          have hinf2 : (true : Bool) = false := hinf
          cases hinf2
      · rw [if_neg hr] at h
        cases h
    · rw [if_neg hm] at h
      by_cases hu : goContains l unicesStr
      · rw [if_pos hu] at h
        injection h with h
        subst h
        exact ⟨h1, h2⟩
      · rw [if_neg hu] at h
        injection h with h
        subst h
        exact ⟨h1, h2⟩
  · rw [if_neg hlen] at h
    injection h with h
    subst h
    exact ⟨h1, h2⟩

/-- The whole loop preserves the infected/result consistency. -/
theorem scanLines_inv : ∀ (lines : List Str) (acc r : ResultsData),
    scanLines acc lines = Except.ok r →
    (acc.infected = true → acc.result ≠ []) →
    (acc.infected = false → acc.result = []) →
    (r.infected = true → r.result ≠ []) ∧ (r.infected = false → r.result = []) := by
  intro lines
  induction lines with
  | nil =>
    intro acc r h h1 h2
    simp only [scanLines] at h
    injection h with h
    subst h
    exact ⟨h1, h2⟩
  | cons l rest ih =>
    intro acc r h h1 h2
    rw [scanLines] at h
    cases hpl : processLine acc l with
    | error e =>
      rw [hpl] at h
      cases h
    | ok acc2 =>
      rw [hpl] at h
      rcases processLine_inv hpl h1 h2 with ⟨g1, g2⟩
      exact ih acc2 r h g1 g2

/-- A loop iteration over a line without the banner marker leaves the
engine field untouched. -/
theorem processLine_engine {acc acc2 : ResultsData} {l : Str}
    (h : processLine acc l = Except.ok acc2)
    (hu : goContains l unicesStr = false) :
    acc2.engine = acc.engine := by
  simp only [processLine] at h
  by_cases hlen : l.length ≠ 0
  · rw [if_pos hlen] at h
    by_cases hm : goContains l markerStr
    · rw [if_pos hm] at h
      by_cases hr : (extractVirusName l).length ≠ 0
      · rw [if_pos hr] at h
        injection h with h
        subst h
        rfl
      · rw [if_neg hr] at h
        cases h
    · rw [if_neg hm] at h
      rw [if_neg (by simp [hu])] at h
      injection h with h
      subst h
      rfl
  · rw [if_neg hlen] at h
    injection h with h
    subst h
    rfl

/-- The whole loop leaves the engine field untouched when no line carries
the banner marker. -/
theorem scanLines_engine : ∀ (lines : List Str) (acc r : ResultsData),
    scanLines acc lines = Except.ok r →
    (∀ l ∈ lines, goContains l unicesStr = false) →
    r.engine = acc.engine := by
  intro lines
  induction lines with
  | nil =>
    intro acc r h _
    simp only [scanLines] at h
    injection h with h
    subst h
    rfl
  | cons l rest ih =>
    intro acc r h hall
    rw [scanLines] at h
    cases hpl : processLine acc l with
    | error e =>
      rw [hpl] at h
      cases h
    | ok acc2 =>
      rw [hpl] at h
      have g1 := processLine_engine hpl (hall l (List.mem_cons_self l rest))
      have g2 := ih acc2 r h (fun x hx => hall x (List.mem_cons_of_mem l hx))
      rw [g2, g1]

/-- Claim C1, counterexample: the output consisting of the single line
"a infected: b infected: c" contains a line of the form
"path infected: Name" whose Name trims non-empty, yet the parser returns
the signature name "b", which is neither the trimmed text after the first
marker ("b infected: c") nor the trimmed text after the second one ("c"). -/
theorem claim1_counterexample :
    ParseBitdefenderOutput envA sampleDoubleLine false =
      Except.ok { infected := true, result := ['b'], engine := [],
                  updated := envA.buildTime } ∧
    goTrimSpace (afterFirstMarker markerStr sampleDoubleLine) =
      "b infected: c".data ∧
    (['b'] : Str) ≠ "b infected: c".data ∧
    (['b'] : Str) ≠ ['c'] :=
  ⟨rfl, by decide, by decide, by decide⟩

/-- Claim C1 (amended): for every scanner output whose marker lines each
yield a non-empty trimmed segment between the first occurrence of
"infected:" and the following one (or the end of the line), the parser
returns infected = true and the Result field equal to that trimmed segment
of the last marker-containing line. -/
theorem claim1_amended (env : ParseEnv) (out l : Str)
    (hl : lastMatching markerLineP (goSplit out newlineStr) = some l)
    (hall : ∀ l2 ∈ goSplit out newlineStr, markerLineP l2 = true →
      goTrimSpace (betweenFirstMarkers markerStr l2) ≠ []) :
    ∃ r, ParseBitdefenderOutput env out false = Except.ok r ∧
      r.infected = true ∧
      r.result = goTrimSpace (betweenFirstMarkers markerStr l) := by
  have herr : ∀ l2 ∈ goSplit out newlineStr,
      goContains l2 markerStr = true → extractVirusName l2 ≠ [] := by
    intro l2 hm hc
    rw [extract_eq_between hc]
    exact hall l2 hm hc
  have hok := scanLines_ok (goSplit out newlineStr)
    { infected := false, result := [], engine := [], updated := [] } herr
  have hp : markerLineP l = true := List.find?_some hl
  have hmem : l ∈ goSplit out newlineStr :=
    List.mem_reverse.mp (List.mem_of_find?_eq_some hl)
  have hany : (goSplit out newlineStr).any markerLineP = true :=
    List.any_eq_true.mpr ⟨l, hmem, hp⟩
  refine ⟨{ scanModel { infected := false, result := [], engine := [], updated := [] }
      (goSplit out newlineStr) with updated := getUpdatedDate env }, ?_, ?_, ?_⟩
  · simp [ParseBitdefenderOutput, hok]
  · simp [scanModel, hany]
  · simp only [scanModel, hl, Option.map_some', Option.getD_some]
    exact extract_eq_between hp

/-- Claim C1, witness: the canned EICAR line parses to an infected result
carrying the trimmed text after its unique marker. -/
theorem claim1_witness :
    ∃ r, ParseBitdefenderOutput envA sampleInfOut false = Except.ok r ∧
      r.infected = true ∧
      r.result = goTrimSpace (betweenFirstMarkers markerStr sampleInfOut) :=
  claim1_amended envA sampleInfOut sampleInfOut (by decide) (by decide)

/-- Claim C2: an output containing a line with the marker followed by
whitespace only makes the parser abort (the os.Exit(2) integrity failure),
rather than return a result. -/
theorem claim2_empty_name_fatal (env : ParseEnv) (out : Str)
    (h : ∃ l, l ∈ goSplit out newlineStr ∧ goContains l markerStr = true ∧
      goTrimSpace (afterFirstMarker markerStr l) = []) :
    ParseBitdefenderOutput env out false = Except.error () := by
  rcases h with ⟨l, hmem, hcon, htrim⟩
  have hext : extractVirusName l = [] := by
    rcases Option.isSome_iff_exists.mp hcon with ⟨i, hi⟩
    have hafter : afterFirstMarker markerStr l = l.drop (i + markerStr.length) := by
      simp [afterFirstMarker, hi]
    have hspace : ∀ c ∈ l.drop (i + markerStr.length), goIsSpace c = true := by
      rw [← hafter]
      exact goTrimSpace_eq_nil htrim
    have hnc := not_contains_of_all_space hspace
    have hnone : indexOfSubstr markerStr (l.drop (i + markerStr.length)) = none := by
      simp only [goContains] at hnc
      cases hh : indexOfSubstr markerStr (l.drop (i + markerStr.length)) with
      | none => rfl
      | some k => rw [hh] at hnc; simp at hnc
    have hbet : betweenFirstMarkers markerStr l = l.drop (i + markerStr.length) := by
      simp [betweenFirstMarkers, hi, hnone]
    rw [extract_eq_between hcon, hbet, ← hafter]
    exact htrim
  have herr := scanLines_error (goSplit out newlineStr)
    { infected := false, result := [], engine := [], updated := [] } ⟨l, hmem, hcon, hext⟩
  simp [ParseBitdefenderOutput, herr]

/-- Claim C2, witness: the output "foo infected:   " makes the parser
abort. -/
theorem claim2_witness :
    ParseBitdefenderOutput envA sampleEmptyName false = Except.error () :=
  claim2_empty_name_fatal envA sampleEmptyName ⟨sampleEmptyName, by decide, by decide, by decide⟩

/-- Claim C3, counterexample: on the line "Unices v1 v2" the parser sets
the engine to "2", the last v-word stripped, not to "1", the first v-word
stripped as the claim states. -/
theorem claim3_counterexample :
    ParseBitdefenderOutput envA sampleVV false =
      Except.ok { infected := false, result := [], engine := ['2'],
                  updated := envA.buildTime } ∧
    (firstVWord sampleVV).map (fun w => goTrimLeading w vStr) = some ['1'] ∧
    (['2'] : Str) ≠ ['1'] :=
  ⟨rfl, by decide, by decide⟩

/-- Claim C3 (amended): the engine version is the last whitespace-delimited
token starting with v, with that v stripped, of the last banner line that
carries such a token (and no infection marker), provided no marker line
aborts the parse. -/
theorem claim3_amended (env : ParseEnv) (out l w : Str)
    (hq : lastMatching engineLineQ (goSplit out newlineStr) = some l)
    (hw : lastVWord l = some w)
    (herr : ∀ l2 ∈ goSplit out newlineStr,
      goContains l2 markerStr = true → extractVirusName l2 ≠ []) :
    ∃ r, ParseBitdefenderOutput env out false = Except.ok r ∧
      r.engine = w.drop 1 := by
  have hok := scanLines_ok (goSplit out newlineStr)
    { infected := false, result := [], engine := [], updated := [] } herr
  have hw2 : ((goFields l).reverse).find? (fun w2 => goStartsWith w2 vStr) = some w := hw
  have hpw : goStartsWith w vStr = true := by
    have hb := List.find?_some hw2
    simpa using hb
  have htrim : goTrimLeading w vStr = w.drop 1 := by
    unfold goTrimLeading
    rw [if_pos hpw]
    rfl
  refine ⟨{ scanModel { infected := false, result := [], engine := [], updated := [] }
      (goSplit out newlineStr) with updated := getUpdatedDate env }, ?_, ?_⟩
  · simp [ParseBitdefenderOutput, hok]
  · simp only [scanModel, hq, Option.map_some', Option.getD_some]
    simp [vOf, hw, htrim]

/-- Claim C3, witness: the example banner line from the source yields the
engine version 7.90123 (the v-word "v7.90123" stripped of its v). -/
theorem claim3_witness :
    ∃ r, ParseBitdefenderOutput envA sampleBanner false = Except.ok r ∧
      r.engine = bannerVWord.drop 1 :=
  claim3_amended envA sampleBanner sampleBanner bannerVWord
    (by decide) (by decide) (by decide)

/-- Claim C4, counterexample: on an error input the parser returns the
zero-value result, whose engine and updated fields are both empty even
though the build-time constant of the run is non-empty — so the two fields
are not always populated. -/
theorem claim4_counterexample :
    ParseBitdefenderOutput envA [] true =
      Except.ok { infected := false, result := [], engine := [], updated := [] } ∧
    envA.buildTime ≠ [] :=
  ⟨rfl, by decide⟩

/-- Claim C4 (amended): the error input yields the zero-value result with
all fields empty; on every non-error input the updated field is populated
from the sentinel lookup, falling back to the build-time constant when the
sentinel is absent (the engine field stays empty when no banner line
occurs). -/
theorem claim4_amended (env : ParseEnv) (out : Str) (r : ResultsData) :
    (ParseBitdefenderOutput env out true =
      Except.ok { infected := false, result := [], engine := [], updated := [] }) ∧
    (ParseBitdefenderOutput env out false = Except.ok r →
      r.updated = getUpdatedDate env ∧
      (env.sentinel = none → r.updated = env.buildTime) ∧
      (goContains out unicesStr = false → r.engine = [])) := by
  constructor
  · rfl
  · intro h
    unfold ParseBitdefenderOutput at h
    rw [if_neg (by simp)] at h
    cases hs : scanLines { infected := false, result := [], engine := [], updated := [] }
        (goSplit out newlineStr) with
    | error e => rw [hs] at h; cases h
    | ok r2 =>
      rw [hs] at h
      injection h with h
      refine ⟨?_, ?_, ?_⟩
      · rw [← h]
      · intro hn
        rw [← h]
        simp [getUpdatedDate, hn]
      · intro hu
        have hlines : ∀ l ∈ goSplit out newlineStr, goContains l unicesStr = false := by
          intro l hm
          cases hc : goContains l unicesStr
          · rfl
          · exfalso
            have hi1 : unicesStr <:+: l := goContains_iff_infix.mp hc
            have hi2 : l <:+: out := goSplit_infix hm
            have hi3 : goContains out unicesStr = true :=
              goContains_iff_infix.mpr (hi1.trans hi2)
            rw [hu] at hi3
            cases hi3
        have he := scanLines_engine (goSplit out newlineStr)
          { infected := false, result := [], engine := [], updated := [] } r2 hs hlines
        rw [← h]
        exact he

/-- Claim C4, witness: the amended statement applied to the empty output
under the sentinel-absent environment. -/
theorem claim4_witness :
    (ParseBitdefenderOutput envA [] true =
      Except.ok { infected := false, result := [], engine := [], updated := [] }) ∧
    ((⟨false, [], [], envA.buildTime⟩ : ResultsData).updated = getUpdatedDate envA ∧
      (envA.sentinel = none →
        (⟨false, [], [], envA.buildTime⟩ : ResultsData).updated = envA.buildTime) ∧
      (goContains [] unicesStr = false →
        (⟨false, [], [], envA.buildTime⟩ : ResultsData).engine = [])) :=
  ⟨(claim4_amended envA [] ⟨false, [], [], envA.buildTime⟩).1,
   (claim4_amended envA [] ⟨false, [], [], envA.buildTime⟩).2 (by rfl)⟩

/-- Claim C5: every result the parser returns satisfies the consistency
invariant: infected implies a non-empty signature name, not infected
implies an empty one. -/
theorem claim5_invariant (env : ParseEnv) (out : Str) (err : Bool) (r : ResultsData)
    (h : ParseBitdefenderOutput env out err = Except.ok r) :
    (r.infected = true → r.result ≠ []) ∧ (r.infected = false → r.result = []) := by
  by_cases he : err = true
  · rw [he] at h
    unfold ParseBitdefenderOutput at h
    rw [if_pos rfl] at h
    injection h with h
    subst h
    constructor
    · intro hh
      have hh2 : (false : Bool) = true := hh
      cases hh2
    · intro _
      rfl
  · have he2 : err = false := by
      cases err
      · rfl
      · exact absurd rfl he
    rw [he2] at h
    unfold ParseBitdefenderOutput at h
    rw [if_neg (by simp)] at h
    cases hs : scanLines { infected := false, result := [], engine := [], updated := [] }
        (goSplit out newlineStr) with
    | error e => rw [hs] at h; cases h
    | ok r2 =>
      rw [hs] at h
      injection h with h
      have hinv := scanLines_inv (goSplit out newlineStr)
        { infected := false, result := [], engine := [], updated := [] } r2 hs
        (by intro hh; have hh2 : (false : Bool) = true := hh; cases hh2)
        (fun _ => rfl)
      subst h
      exact hinv

/-- Claim C5, witness: the invariant instantiated at the EICAR detection
output, whose result is infected with the EICAR signature name. -/
theorem claim5_witness :
    ((⟨true, eicarName, [], envA.buildTime⟩ : ResultsData).infected = true →
      (⟨true, eicarName, [], envA.buildTime⟩ : ResultsData).result ≠ []) ∧
    ((⟨true, eicarName, [], envA.buildTime⟩ : ResultsData).infected = false →
      (⟨true, eicarName, [], envA.buildTime⟩ : ResultsData).result = []) :=
  claim5_invariant envA sampleInfOut false ⟨true, eicarName, [], envA.buildTime⟩ (by rfl)

/-- Claim C6: an output with no occurrence of the marker parses to a
non-infected result with an empty signature name. -/
theorem claim6_no_marker (env : ParseEnv) (out : Str)
    (h : goContains out markerStr = false) :
    ∃ r, ParseBitdefenderOutput env out false = Except.ok r ∧
      r.infected = false ∧ r.result = [] := by
  have hall : ∀ l ∈ goSplit out newlineStr, markerLineP l = false := by
    intro l hm
    cases hc : markerLineP l
    · rfl
    · exfalso
      have h1 : markerStr <:+: l := goContains_iff_infix.mp hc
      have h2 : l <:+: out := goSplit_infix hm
      have h3 : goContains out markerStr = true := goContains_iff_infix.mpr (h1.trans h2)
      rw [h] at h3
      cases h3
  have herr : ∀ l ∈ goSplit out newlineStr,
      goContains l markerStr = true → extractVirusName l ≠ [] := by
    intro l hm hc
    have hf := hall l hm
    simp only [markerLineP] at hf
    rw [hf] at hc
    cases hc
  have hok := scanLines_ok (goSplit out newlineStr)
    { infected := false, result := [], engine := [], updated := [] } herr
  have hany : (goSplit out newlineStr).any markerLineP = false := by
    cases ha : (goSplit out newlineStr).any markerLineP
    · rfl
    · exfalso
      rcases List.any_eq_true.mp ha with ⟨x, hx, hpx⟩
      rw [hall x hx] at hpx
      cases hpx
  have hnone : lastMatching markerLineP (goSplit out newlineStr) = none := by
    simp only [lastMatching]
    rw [List.find?_eq_none]
    intro x hx
    rw [List.mem_reverse] at hx
    simp [hall x hx]
  refine ⟨{ scanModel { infected := false, result := [], engine := [], updated := [] }
      (goSplit out newlineStr) with updated := getUpdatedDate env }, ?_, ?_, ?_⟩
  · simp [ParseBitdefenderOutput, hok]
  · simp [scanModel, hany]
  · simp [scanModel, hnone]

/-- Claim C6, witness: the marker-free statistics output parses clean. -/
theorem claim6_witness :
    ∃ r, ParseBitdefenderOutput envA cleanOut false = Except.ok r ∧
      r.infected = false ∧ r.result = [] :=
  claim6_no_marker envA cleanOut (by decide)

/-- Claim C7: the freshness lookup returns the build-time constant when the
sentinel file is absent, and the raw contents verbatim when present — in
particular contents "20230615" come back exactly. -/
theorem claim7_sentinel (bt c : Str) :
    getUpdatedDate { buildTime := bt, sentinel := none } = bt ∧
    getUpdatedDate { buildTime := bt, sentinel := some c } = c ∧
    getUpdatedDate { buildTime := bt, sentinel := some updC } = updC :=
  ⟨rfl, rfl, rfl⟩

/-- Claim C8, counterexample: a web scan whose scanner output triggers the
parser integrity abort creates the temp file but exits through os.Exit(2),
so the deferred removal never runs and the file is left behind. -/
theorem claim8_counterexample :
    webAvScan envA effParseErr =
      { badRequest := false, tmpCreated := true, tmpRemoved := false,
        exitCode := some 2, respondedOk := false } ∧
    (webAvScan envA effParseErr).tmpCreated = true ∧
    (webAvScan envA effParseErr).tmpRemoved = false :=
  ⟨rfl, rfl, rfl⟩

/-- Claim C8 (amended): the temp file is removed exactly on the handler's
normal-return path; every abort path (parser integrity error, process
failure or timeout, read/write/close/encode failures) exits the process
via os.Exit, which skips the deferred removal. -/
theorem claim8_amended (env : ParseEnv) (eff : WebEffects) :
    (webAvScan env eff).tmpRemoved =
      ((webAvScan env eff).tmpCreated && (webAvScan env eff).exitCode.isNone) := by
  unfold webAvScan
  by_cases h1 : eff.tmpCreateErr
  · simp [h1]
  · by_cases h2 : assertFatal eff.readErr
    · simp [h1, h2]
    · by_cases h3 : eff.writeErr
      · simp [h1, h2, h3]
      · by_cases h4 : eff.closeErr
        · simp [h1, h2, h3, h4]
        · by_cases h5 : assertFatal eff.runErr
          · simp [h1, h2, h3, h4, h5]
          · cases hp : ParseBitdefenderOutput env eff.scanOutput false with
            | error e => simp [h1, h2, h3, h4, h5, hp]
            | ok r =>
              by_cases h6 : eff.encodeErr <;> simp [h1, h2, h3, h4, h5, hp, h6]

/-- Claim C9: on a successful run of the update sub-command, updateAV
writes today's date formatted as YYYYMMDD to the sentinel file and returns
the sentinel write error verbatim to the caller (none only when the write
succeeded); the date 2023-06-15 formats to "20230615". -/
theorem claim9_update (today : GoDate) (writeErr : Option Str) :
    updateAV none today writeErr =
      UpdateOutcome.completed (formatYYYYMMDD today) writeErr ∧
    formatYYYYMMDD { year := 2023, month := 6, day := 15 } = updC :=
  ⟨rfl, by decide⟩

/-- Claim C10: when a line contains the marker twice, the extracted
signature name is the trimmed text between the first and the second
occurrence, not the full trailing segment. -/
theorem claim10_between (line : Str) (i j : Nat)
    (hi : indexOfSubstr markerStr line = some i)
    (hj : indexOfSubstr markerStr (line.drop (i + markerStr.length)) = some j) :
    extractVirusName line =
      goTrimSpace ((line.drop (i + markerStr.length)).take j) := by
  have hc : goContains line markerStr = true := by
    simp [goContains, hi]
  rw [extract_eq_between hc]
  simp [betweenFirstMarkers, hi, hj]

/-- Claim C10, witness: on "a infected: b infected: c" the first marker
sits at index 2 and the next occurrence 3 characters further, so the
extracted name is the trimmed " b ", that is "b". -/
theorem claim10_witness :
    extractVirusName sampleDoubleLine =
      goTrimSpace ((sampleDoubleLine.drop (2 + markerStr.length)).take 3) ∧
    goTrimSpace ((sampleDoubleLine.drop (2 + markerStr.length)).take 3) = ['b'] :=
  ⟨claim10_between sampleDoubleLine 2 3 (by decide) (by decide), by decide⟩

end Bitdefender
